import Mathlib

/-!
Verification of the Air Traffic Control simulator core (atc_simulator.py).

The embedding below translates the algorithmic core of the simulator into
Lean: the kinematic state and maneuver model, the closest-point-of-approach
geometry, the bounded A* search over joint two-aircraft states, and the
per-tick conflict scan of the controller.  Real-valued library calls of the
source (math.sin, math.cos composed with math.radians, and math.sqrt) are
taken as an explicit parameter record of rational-valued functions, so every
definition stays computable; all theorems below hold for an arbitrary choice
of these functions, hence in particular for rational approximations of the
true ones, and concrete runs instantiate them with functions that agree with
the true ones on every argument actually evaluated.
-/

set_option allowUnsafeReducibility true
attribute [semireducible] Rat.add Rat.mul Rat.inv Rat.div Rat.sub Rat.neg

/-- Python float modulo with a positive modulus: a - b * floor (a / b).
Used for the heading wrap-around (heading % 360). -/
def pymod (a b : ℚ) : ℚ := a - b * ⌊a / b⌋

/-- Python round half to even of a rational, as in round(x, 0). -/
def roundHalfEven (q : ℚ) : ℤ :=
  if q - ⌊q⌋ < 1/2 then ⌊q⌋
  else if 1/2 < q - ⌊q⌋ then ⌊q⌋ + 1
  else if ⌊q⌋ % 2 = 0 then ⌊q⌋ else ⌊q⌋ + 1

/-- round(x, 0) as a rational value. -/
def pyRound0 (q : ℚ) : ℚ := (roundHalfEven q : ℚ)

/-- round(x, 1) as a rational value: round half to even at one decimal. -/
def pyRound1 (q : ℚ) : ℚ := (roundHalfEven (10 * q) : ℚ) / 10

/-- Aircraft.HORIZONTAL_MIN (nautical miles). -/
def HORIZONTAL_MIN : ℚ := 5

/-- Aircraft.VERTICAL_MIN (feet). -/
def VERTICAL_MIN : ℚ := 1000

/-- The kinematic vector of one aircraft, the five-tuple
(x, y, z, speed, heading) that the resolver stores per callsign. -/
structure AcState where
  x : ℚ
  y : ℚ
  z : ℚ
  speed : ℚ
  heading : ℚ
deriving DecidableEq

/-- An Aircraft object: callsign plus kinematic fields plus the conflict
flag used by the presentation layer. -/
structure Aircraft where
  callsign : String
  x : ℚ
  y : ℚ
  z : ℚ
  speed : ℚ
  heading : ℚ
  conflict_alert : Bool
deriving DecidableEq

/-- The Aircraft constructor: normalizes the heading with % 360 and clears
the conflict flag. -/
def Aircraft.init (callsign : String) (x y z speed_knots heading_deg : ℚ) :
    Aircraft :=
  ⟨callsign, x, y, z, speed_knots, pymod heading_deg 360, false⟩

/-- The kinematic vector held by an Aircraft object. -/
def Aircraft.state (a : Aircraft) : AcState :=
  ⟨a.x, a.y, a.z, a.speed, a.heading⟩

/-- A Maneuver: targeted callsign and the three deltas (each defaulting
to zero, exactly one nonzero in the canonical action set). -/
structure Maneuver where
  callsign : String
  heading_change : ℚ := 0
  altitude_change : ℚ := 0
  speed_change : ℚ := 0
deriving DecidableEq

/-- Maneuver.cost: weighted sum of the absolute deltas. -/
def Maneuver.cost (m : Maneuver) : ℚ :=
  |m.heading_change| * (1/10) + |m.altitude_change / 1000| * (1/2) +
    |m.speed_change / 50| * (1/5)

/-- Aircraft.apply_maneuver on the kinematic vector: heading shifted and
wrapped mod 360, altitude shifted and clamped to the 5000 ft floor, speed
shifted and clamped to the 200 kt floor. -/
def apply_maneuver (s : AcState) (m : Maneuver) : AcState :=
  { s with
    heading := pymod (s.heading + m.heading_change) 360
    z := max 5000 (s.z + m.altitude_change)
    speed := max 200 (s.speed + m.speed_change) }

/-- The real-valued library functions of the source, as rational-valued
parameters: sin and cos take an angle in degrees and stand for
math.sin (math.radians d) and math.cos (math.radians d); sqrt stands for
math.sqrt. -/
structure RealFns where
  sin : ℚ → ℚ
  cos : ℚ → ℚ
  sqrt : ℚ → ℚ

/-- ConflictResolver._calculate_cpa on the two kinematic vectors of a joint
state.  The first component is the minimum horizontal separation, with ⊤
standing for float +infinity; then the vertical separation and the time of
closest approach. -/
def _calculate_cpa (R : RealFns) (lookahead_hrs : ℚ) (sa sb : AcState) :
    WithTop ℚ × ℚ × ℚ :=
  let vertical_sep := |sa.z - sb.z|
  if VERTICAL_MIN ≤ vertical_sep then (⊤, vertical_sep, 0)
  else
    let vax := sa.speed * R.sin sa.heading
    let vay := sa.speed * R.cos sa.heading
    let vbx := sb.speed * R.sin sb.heading
    let vby := sb.speed * R.cos sb.heading
    let vrx := vbx - vax
    let vry := vby - vay
    let rx := sb.x - sa.x
    let ry := sb.y - sa.y
    let v_rel_sq := vrx ^ 2 + vry ^ 2
    if v_rel_sq < 1/1000 then
      (↑(R.sqrt (rx ^ 2 + ry ^ 2)), vertical_sep, lookahead_hrs / 2)
    else
      let tcpa := -(rx * vrx + ry * vry) / v_rel_sq
      let min_sep_dist :=
        if tcpa < 0 then R.sqrt (rx ^ 2 + ry ^ 2)
        else R.sqrt ((rx + vrx * tcpa) ^ 2 + (ry + vry * tcpa) ^ 2)
      let min_sep_dist' :=
        if lookahead_hrs < tcpa then
          min min_sep_dist
            (R.sqrt ((rx + vrx * lookahead_hrs) ^ 2 +
              (ry + vry * lookahead_hrs) ^ 2))
        else min_sep_dist
      (↑min_sep_dist', vertical_sep, max 0 tcpa)

/-- ConflictResolver._heuristic.  The horizontal penalty of an infinite
horizontal separation is 0, as in the float arithmetic of the source where
max(0, H_MIN - inf) = 0; that branch is in fact only reached with h = 0. -/
def _heuristic (R : RealFns) (lookahead_hrs : ℚ) (sa sb : AcState) : ℚ :=
  let r := _calculate_cpa R lookahead_hrs sa sb
  let h_dist := r.1
  let h_v_sep := r.2.1
  if (HORIZONTAL_MIN : WithTop ℚ) ≤ h_dist ∧ VERTICAL_MIN ≤ h_v_sep then 0
  else
    let horizontal_penalty : ℚ :=
      match h_dist with
      | ⊤ => 0
      | (d : ℚ) => max 0 (HORIZONTAL_MIN - d) / HORIZONTAL_MIN
    let vertical_penalty := max 0 (VERTICAL_MIN - h_v_sep) / VERTICAL_MIN
    (horizontal_penalty + vertical_penalty) * 5

example :
    _calculate_cpa ⟨fun _ => 0, fun _ => 0, fun _ => 0⟩ 1
      ⟨0, 0, 31000, 400, 90⟩ ⟨0, 0, 30000, 400, 270⟩ = (⊤, 1000, 0) := by
  decide

theorem pymod_nonneg (a : ℚ) {b : ℚ} (hb : 0 < b) : 0 ≤ pymod a b := by
  have hbne : b ≠ 0 := ne_of_gt hb
  have h1 : (⌊a / b⌋ : ℚ) ≤ a / b := Int.floor_le _
  have ha : b * (a / b) = a := by field_simp
  unfold pymod
  nlinarith

theorem pymod_lt (a : ℚ) {b : ℚ} (hb : 0 < b) : pymod a b < b := by
  have hbne : b ≠ 0 := ne_of_gt hb
  have h2 : a / b < ⌊a / b⌋ + 1 := Int.lt_floor_add_one _
  have ha : b * (a / b) = a := by field_simp
  unfold pymod
  nlinarith

/-- C1: if the vertical separation of the two kinematic states is at least
the vertical minimum (1000 ft), _calculate_cpa short-circuits and reports
the pair safe for any horizontal geometry: infinite (⊤) horizontal
separation, the vertical separation itself, and zero time of closest
approach. -/
theorem cpa_vertical_short_circuit (R : RealFns) (L : ℚ) (sa sb : AcState)
    (h : VERTICAL_MIN ≤ |sa.z - sb.z|) :
    _calculate_cpa R L sa sb = (⊤, |sa.z - sb.z|, 0) := by
  unfold _calculate_cpa
  simp [h]

theorem cpa_vertical_short_circuit_witness :
    VERTICAL_MIN ≤ |(31000 : ℚ) - 30000| ∧
      _calculate_cpa ⟨fun _ => 0, fun _ => 0, fun _ => 0⟩ 1
        ⟨0, 0, 31000, 400, 90⟩ ⟨0, 0, 30000, 400, 270⟩ =
        (⊤, |(31000 : ℚ) - 30000|, 0) :=
  ⟨by decide,
    cpa_vertical_short_circuit ⟨fun _ => 0, fun _ => 0, fun _ => 0⟩ 1
      ⟨0, 0, 31000, 400, 90⟩ ⟨0, 0, 30000, 400, 270⟩ (by decide)⟩

/-- C6: apply_maneuver shifts the heading by heading_change wrapped mod 360
(hence the new heading lies in [0, 360)), shifts the altitude and clamps it
to the 5000 ft floor, and shifts the speed and clamps it to the 200 kt
floor; consequently altitude and speed respect their floors afterwards. -/
theorem apply_maneuver_spec (s : AcState) (m : Maneuver) :
    (apply_maneuver s m).heading = pymod (s.heading + m.heading_change) 360 ∧
    0 ≤ (apply_maneuver s m).heading ∧
    (apply_maneuver s m).heading < 360 ∧
    (apply_maneuver s m).z = max 5000 (s.z + m.altitude_change) ∧
    5000 ≤ (apply_maneuver s m).z ∧
    (apply_maneuver s m).speed = max 200 (s.speed + m.speed_change) ∧
    200 ≤ (apply_maneuver s m).speed := by
  refine ⟨rfl, ?_, ?_, rfl, le_max_left _ _, rfl, le_max_left _ _⟩
  · exact pymod_nonneg _ (by norm_num)
  · exact pymod_lt _ (by norm_num)

/-- C9: _calculate_cpa is agent-order-independent: swapping which state is
agent A and which is agent B leaves the reported triple of minimum
horizontal separation, vertical separation and time of closest approach
unchanged. -/
theorem cpa_symmetric (R : RealFns) (L : ℚ) (sa sb : AcState) :
    _calculate_cpa R L sa sb = _calculate_cpa R L sb sa := by
  unfold _calculate_cpa
  rw [abs_sub_comm sb.z sa.z]
  by_cases hv : VERTICAL_MIN ≤ |sa.z - sb.z|
  · simp only [if_pos hv]
  · simp only [if_neg hv]
    rw [show (sa.speed * R.sin sa.heading - sb.speed * R.sin sb.heading) ^ 2 +
          (sa.speed * R.cos sa.heading - sb.speed * R.cos sb.heading) ^ 2 =
        (sb.speed * R.sin sb.heading - sa.speed * R.sin sa.heading) ^ 2 +
          (sb.speed * R.cos sb.heading - sa.speed * R.cos sa.heading) ^ 2 from
        by ring]
    rw [show (sa.x - sb.x) ^ 2 + (sa.y - sb.y) ^ 2 =
        (sb.x - sa.x) ^ 2 + (sb.y - sa.y) ^ 2 from by ring]
    rw [show -((sa.x - sb.x) *
            (sa.speed * R.sin sa.heading - sb.speed * R.sin sb.heading) +
          (sa.y - sb.y) *
            (sa.speed * R.cos sa.heading - sb.speed * R.cos sb.heading)) =
        -((sb.x - sa.x) *
            (sb.speed * R.sin sb.heading - sa.speed * R.sin sa.heading) +
          (sb.y - sa.y) *
            (sb.speed * R.cos sb.heading - sa.speed * R.cos sa.heading)) from
        by ring]
    rw [show (sa.x - sb.x +
          (sa.speed * R.sin sa.heading - sb.speed * R.sin sb.heading) *
            (-((sb.x - sa.x) *
                (sb.speed * R.sin sb.heading - sa.speed * R.sin sa.heading) +
              (sb.y - sa.y) *
                (sb.speed * R.cos sb.heading - sa.speed * R.cos sa.heading)) /
              ((sb.speed * R.sin sb.heading - sa.speed * R.sin sa.heading) ^ 2 +
                (sb.speed * R.cos sb.heading -
                  sa.speed * R.cos sa.heading) ^ 2))) ^ 2 +
        (sa.y - sb.y +
          (sa.speed * R.cos sa.heading - sb.speed * R.cos sb.heading) *
            (-((sb.x - sa.x) *
                (sb.speed * R.sin sb.heading - sa.speed * R.sin sa.heading) +
              (sb.y - sa.y) *
                (sb.speed * R.cos sb.heading - sa.speed * R.cos sa.heading)) /
              ((sb.speed * R.sin sb.heading - sa.speed * R.sin sa.heading) ^ 2 +
                (sb.speed * R.cos sb.heading -
                  sa.speed * R.cos sa.heading) ^ 2))) ^ 2 =
        (sb.x - sa.x +
          (sb.speed * R.sin sb.heading - sa.speed * R.sin sa.heading) *
            (-((sb.x - sa.x) *
                (sb.speed * R.sin sb.heading - sa.speed * R.sin sa.heading) +
              (sb.y - sa.y) *
                (sb.speed * R.cos sb.heading - sa.speed * R.cos sa.heading)) /
              ((sb.speed * R.sin sb.heading - sa.speed * R.sin sa.heading) ^ 2 +
                (sb.speed * R.cos sb.heading -
                  sa.speed * R.cos sa.heading) ^ 2))) ^ 2 +
        (sb.y - sa.y +
          (sb.speed * R.cos sb.heading - sa.speed * R.cos sa.heading) *
            (-((sb.x - sa.x) *
                (sb.speed * R.sin sb.heading - sa.speed * R.sin sa.heading) +
              (sb.y - sa.y) *
                (sb.speed * R.cos sb.heading - sa.speed * R.cos sa.heading)) /
              ((sb.speed * R.sin sb.heading - sa.speed * R.sin sa.heading) ^ 2 +
                (sb.speed * R.cos sb.heading -
                  sa.speed * R.cos sa.heading) ^ 2))) ^ 2 from by ring]
    rw [show (sa.x - sb.x +
          (sa.speed * R.sin sa.heading - sb.speed * R.sin sb.heading) * L) ^ 2 +
        (sa.y - sb.y +
          (sa.speed * R.cos sa.heading - sb.speed * R.cos sb.heading) * L) ^ 2 =
        (sb.x - sa.x +
          (sb.speed * R.sin sb.heading - sa.speed * R.sin sa.heading) * L) ^ 2 +
        (sb.y - sa.y +
          (sb.speed * R.cos sb.heading - sa.speed * R.cos sa.heading) * L) ^ 2
        from by ring]

/-- C2: for a pair that is not vertically safe, _calculate_cpa follows the
specified case analysis.  With relative velocity (vrx, vry) and relative
position (rx, ry): when the squared relative speed is below the 0.001
epsilon the current separation is returned with half the lookahead horizon
as the time; otherwise tcpa = -(relPos . relVel) / |relVel|^2 is computed,
a negative tcpa yields the current separation (and a reported time of 0),
a tcpa inside the horizon yields the projected separation at tcpa, and a
tcpa beyond the horizon additionally evaluates the separation at the
horizon boundary and returns the smaller of the two. -/
theorem cpa_case_analysis (R : RealFns) (L : ℚ) (sa sb : AcState)
    (hv : |sa.z - sb.z| < VERTICAL_MIN) (hL : 0 ≤ L) :
    let vrx := sb.speed * R.sin sb.heading - sa.speed * R.sin sa.heading
    let vry := sb.speed * R.cos sb.heading - sa.speed * R.cos sa.heading
    let rx := sb.x - sa.x
    let ry := sb.y - sa.y
    let v_rel_sq := vrx ^ 2 + vry ^ 2
    let tcpa := -(rx * vrx + ry * vry) / v_rel_sq
    (v_rel_sq < 1/1000 →
      _calculate_cpa R L sa sb =
        (↑(R.sqrt (rx ^ 2 + ry ^ 2)), |sa.z - sb.z|, L / 2)) ∧
    (1/1000 ≤ v_rel_sq → tcpa < 0 →
      _calculate_cpa R L sa sb =
        (↑(R.sqrt (rx ^ 2 + ry ^ 2)), |sa.z - sb.z|, 0)) ∧
    (1/1000 ≤ v_rel_sq → 0 ≤ tcpa → tcpa ≤ L →
      _calculate_cpa R L sa sb =
        (↑(R.sqrt ((rx + vrx * tcpa) ^ 2 + (ry + vry * tcpa) ^ 2)),
          |sa.z - sb.z|, tcpa)) ∧
    (1/1000 ≤ v_rel_sq → L < tcpa →
      _calculate_cpa R L sa sb =
        (↑(min (R.sqrt ((rx + vrx * tcpa) ^ 2 + (ry + vry * tcpa) ^ 2))
            (R.sqrt ((rx + vrx * L) ^ 2 + (ry + vry * L) ^ 2))),
          |sa.z - sb.z|, tcpa)) := by
  intro vrx vry rx ry v_rel_sq tcpa
  have hv' : ¬ VERTICAL_MIN ≤ |sa.z - sb.z| := not_le.mpr hv
  refine ⟨?_, ?_, ?_, ?_⟩
  · intro hsq
    unfold _calculate_cpa
    simp only [if_neg hv', if_pos hsq]
  · intro hsq ht
    have hnt : ¬ tcpa < 0 → False := fun h => h ht
    have hLt : ¬ L < tcpa := not_lt.mpr (le_of_lt (lt_of_lt_of_le ht hL))
    unfold _calculate_cpa
    simp only [if_neg hv', if_neg (not_lt.mpr hsq), if_pos ht, if_neg hLt]
    rw [max_eq_left (le_of_lt ht)]
  · intro hsq ht0 htL
    have hnt : ¬ tcpa < 0 := not_lt.mpr ht0
    have hLt : ¬ L < tcpa := not_lt.mpr htL
    unfold _calculate_cpa
    simp only [if_neg hv', if_neg (not_lt.mpr hsq), if_neg hnt, if_neg hLt]
    rw [max_eq_right ht0]
  · intro hsq htL
    have ht0 : (0 : ℚ) ≤ tcpa := le_of_lt (lt_of_le_of_lt hL htL)
    have hnt : ¬ tcpa < 0 := not_lt.mpr ht0
    unfold _calculate_cpa
    simp only [if_neg hv', if_neg (not_lt.mpr hsq), if_neg hnt, if_pos htL]
    rw [max_eq_right ht0]

theorem cpa_case_analysis_witness :
    |(30000 : ℚ) - 30000| < VERTICAL_MIN ∧ (0 : ℚ) ≤ 1 ∧
    (let R : RealFns := ⟨fun _ => 0, fun _ => 0, fun _ => 0⟩
     let sa : AcState := ⟨0, 0, 30000, 400, 90⟩
     let sb : AcState := ⟨10, 0, 30000, 400, 270⟩
     let vrx := sb.speed * R.sin sb.heading - sa.speed * R.sin sa.heading
     let vry := sb.speed * R.cos sb.heading - sa.speed * R.cos sa.heading
     let rx := sb.x - sa.x
     let ry := sb.y - sa.y
     let v_rel_sq := vrx ^ 2 + vry ^ 2
     let tcpa := -(rx * vrx + ry * vry) / v_rel_sq
     (v_rel_sq < 1/1000 →
       _calculate_cpa R 1 sa sb =
         (↑(R.sqrt (rx ^ 2 + ry ^ 2)), |sa.z - sb.z|, 1 / 2)) ∧
     (1/1000 ≤ v_rel_sq → tcpa < 0 →
       _calculate_cpa R 1 sa sb =
         (↑(R.sqrt (rx ^ 2 + ry ^ 2)), |sa.z - sb.z|, 0)) ∧
     (1/1000 ≤ v_rel_sq → 0 ≤ tcpa → tcpa ≤ 1 →
       _calculate_cpa R 1 sa sb =
         (↑(R.sqrt ((rx + vrx * tcpa) ^ 2 + (ry + vry * tcpa) ^ 2)),
           |sa.z - sb.z|, tcpa)) ∧
     (1/1000 ≤ v_rel_sq → 1 < tcpa →
       _calculate_cpa R 1 sa sb =
         (↑(min (R.sqrt ((rx + vrx * tcpa) ^ 2 + (ry + vry * tcpa) ^ 2))
             (R.sqrt ((rx + vrx * 1) ^ 2 + (ry + vry * 1) ^ 2))),
           |sa.z - sb.z|, tcpa))) :=
  ⟨by decide, by decide,
    cpa_case_analysis ⟨fun _ => 0, fun _ => 0, fun _ => 0⟩ 1
      ⟨0, 0, 30000, 400, 90⟩ ⟨10, 0, 30000, 400, 270⟩ (by decide) (by decide)⟩

example : pymod 365 360 = 5 := by decide

example : roundHalfEven (5/2) = 2 := by decide

example : roundHalfEven (7/2) = 4 := by decide

/-- The quantized fingerprint of one kinematic vector as used by
ConflictState.__hash__: position, altitude and speed rounded to whole
units, heading rounded to one decimal. -/
def fpAc (s : AcState) : ℚ × ℚ × ℚ × ℚ × ℚ :=
  (pyRound0 s.x, pyRound0 s.y, pyRound0 s.z, pyRound0 s.speed,
    pyRound1 s.heading)

/-- The fingerprint of a joint state: agent A first, then agent B,
mirroring the insertion order of the aircraft_states dict. -/
abbrev Fp : Type := (ℚ × ℚ × ℚ × ℚ × ℚ) × (ℚ × ℚ × ℚ × ℚ × ℚ)

def fpPair (sa sb : AcState) : Fp := (fpAc sa, fpAc sb)

/-- A node of the A* open list: the joint state (the two kinematic
vectors), the g/h/f costs, and the maneuvers applied from the root, oldest
first.  The source stores a parent back-link and a last maneuver instead
and reconstructs exactly this list when a goal node is popped. -/
structure SNode where
  sa : AcState
  sb : AcState
  g_cost : ℚ
  h_cost : ℚ
  f_cost : ℚ
  path : List Maneuver
deriving DecidableEq

/-- heapq.heappop on the open list: removes an element with minimal f_cost
(the leftmost one among equals, since sift operations move an inserted
element past strictly greater elements only). -/
def popMin : List SNode → Option (SNode × List SNode)
  | [] => none
  | n :: rest =>
    match popMin rest with
    | none => some (n, rest)
    | some (m, rest') =>
      if m.f_cost < n.f_cost then some (m, n :: rest') else some (n, rest)

/-- The fixed maneuver catalogue of ConflictResolver.__init__: heading
deltas for A, heading deltas for B, altitude deltas for A, altitude deltas
for B, in source order. -/
def MANEUVER_OPTIONS (csA csB : String) : List Maneuver :=
  (([-10, 10, -5, 5] : List ℚ).map
      fun d => { callsign := csA, heading_change := d }) ++
  (([-10, 10, -5, 5] : List ℚ).map
      fun d => { callsign := csB, heading_change := d }) ++
  (([-1000, 1000] : List ℚ).map
      fun d => { callsign := csA, altitude_change := d }) ++
  (([-1000, 1000] : List ℚ).map
      fun d => { callsign := csB, altitude_change := d })

/-- One successor joint state: the dict is copied and the entry of the
maneuvered callsign is overwritten; the temporary Aircraft constructor
re-normalizes the stored heading with % 360 before the maneuver applies. -/
def successorStates (csA csB : String) (sa sb : AcState) (m : Maneuver) :
    AcState × AcState :=
  if m.callsign = csA then
    (apply_maneuver { sa with heading := pymod sa.heading 360 } m, sb)
  else if m.callsign = csB then
    (sa, apply_maneuver { sb with heading := pymod sb.heading 360 } m)
  else (sa, sb)

/-- The g_scores dict, keyed by the quantized fingerprint; an assignment
conses the new binding in front and lookup takes the newest binding. -/
abbrev GS : Type := List (Fp × ℚ)

def lookupGS : GS → Fp → Option ℚ
  | [], _ => none
  | (k, v) :: rest, key => if k = key then some v else lookupGS rest key

/-- The body of the successor loop of a_star_search for one maneuver:
build the successor with g = parent g + maneuver cost and h from the
heuristic, then discard it if an equal-or-better g is already recorded
for its fingerprint, else record its g and push it. -/
def pushSucc (R : RealFns) (L : ℚ) (csA csB : String) (cur : SNode)
    (acc : List SNode × GS) (m : Maneuver) : List SNode × GS :=
  let states := successorStates csA csB cur.sa cur.sb m
  let g' := cur.g_cost + m.cost
  let h' := _heuristic R L states.1 states.2
  let succ : SNode := ⟨states.1, states.2, g', h', g' + h', cur.path ++ [m]⟩
  let key := fpPair states.1 states.2
  match lookupGS acc.2 key with
  | some g0 => if g0 ≤ g' then acc else (acc.1 ++ [succ], (key, g') :: acc.2)
  | none => (acc.1 ++ [succ], (key, g') :: acc.2)

/-- The full successor loop over the maneuver catalogue. -/
def expandAll (R : RealFns) (L : ℚ) (csA csB : String) (cur : SNode)
    (rest : List SNode) (gs : GS) : List SNode × GS :=
  (MANEUVER_OPTIONS csA csB).foldl (pushSucc R L csA csB cur) (rest, gs)

/-- How one a_star_search invocation ends: a popped node with h = 0
(success, carrying the reconstructed maneuver list), exhaustion of the pop
budget, or an empty open list at the loop guard. -/
inductive AStarExit where
  | success : List Maneuver → AStarExit
  | budget : AStarExit
  | emptyOpen : AStarExit
deriving DecidableEq

/-- The A* main loop, with the remaining pop budget as fuel; the result
also counts the pops performed.  As in the source loop guard, open-list
emptiness is tested before the budget; then a node is popped, the goal
test h = 0 is applied, and otherwise the successor loop runs and the loop
repeats. -/
def aloop (R : RealFns) (L : ℚ) (csA csB : String) :
    Nat → List SNode → GS → AStarExit × Nat
  | fuel, op, gs =>
    match popMin op with
    | none => (.emptyOpen, 0)
    | some (cur, rest) =>
      match fuel with
      | 0 => (.budget, 0)
      | fuel' + 1 =>
        if cur.h_cost = 0 then (.success cur.path, 1)
        else
          let next := expandAll R L csA csB cur rest gs
          let r := aloop R L csA csB fuel' next.1 next.2
          (r.1, r.2 + 1)

/-- The fixed expansion budget of a_star_search. -/
def max_search_nodes : Nat := 1000

/-- The root node of a search: both aircraft states, g = 0, f = h. -/
def aStarInit (R : RealFns) (L : ℚ) (A B : Aircraft) : SNode :=
  ⟨A.state, B.state, 0, _heuristic R L A.state B.state,
    0 + _heuristic R L A.state B.state, []⟩

/-- ConflictResolver.a_star_search, instrumented with the exit reason and
the pop count; the open list starts with the root and g_scores with the
root fingerprint at 0. -/
def aStarRun (R : RealFns) (L : ℚ) (A B : Aircraft) : AStarExit × Nat :=
  aloop R L A.callsign B.callsign max_search_nodes [aStarInit R L A B]
    [(fpPair A.state B.state, 0)]

/-- ConflictResolver.a_star_search as the caller sees it: the maneuver
list on success, None otherwise. -/
def a_star_search (R : RealFns) (L : ℚ) (A B : Aircraft) :
    Option (List Maneuver) :=
  match (aStarRun R L A B).1 with
  | .success p => some p
  | _ => none

theorem aloop_pops_le (R : RealFns) (L : ℚ) (csA csB : String) :
    ∀ (fuel : Nat) (op : List SNode) (gs : GS),
      (aloop R L csA csB fuel op gs).2 ≤ fuel := by
  intro fuel
  induction fuel with
  | zero =>
    intro op gs
    rw [aloop]
    cases popMin op with
    | none => exact le_refl 0
    | some pr => exact le_refl 0
  | succ n ih =>
    intro op gs
    rw [aloop]
    cases popMin op with
    | none => exact Nat.zero_le _
    | some pr =>
      obtain ⟨cur, rest⟩ := pr
      by_cases h0 : cur.h_cost = 0
      · simp only [if_pos h0]
        exact Nat.succ_le_succ (Nat.zero_le n)
      · simp only [if_neg h0]
        exact Nat.succ_le_succ (ih _ _)

/-- C3: for every starting pair, a_star_search terminates (the loop is a
total function of its fuel) having popped at most max_search_nodes = 1000
nodes, and a run that ends by budget exhaustion rather than by a popped
goal node returns None. -/
theorem a_star_budget_bound (R : RealFns) (L : ℚ) (A B : Aircraft) :
    (aStarRun R L A B).2 ≤ 1000 ∧
      ((aStarRun R L A B).1 ≠ AStarExit.budget ∨
        a_star_search R L A B = none) := by
  constructor
  · exact aloop_pops_le R L A.callsign B.callsign 1000 _ _
  · by_cases h : (aStarRun R L A B).1 = AStarExit.budget
    · right
      unfold a_star_search
      rw [h]
    · left
      exact h

example :
    aStarRun ⟨fun d => if d = 90 then 1 else if d = 270 then -1 else 0,
        fun d => if d = 0 then 1 else if d = 180 then -1 else 0,
        fun _ => 0⟩ (1/6)
      (Aircraft.init "AAL123" 0 0 30000 400 90)
      (Aircraft.init "UAL456" 10 0 30000 400 270) =
    (AStarExit.success [{ callsign := "AAL123", altitude_change := -1000 }],
      2) := by
  decide

theorem roundHalfEven_floor_le (q : ℚ) : ⌊q⌋ ≤ roundHalfEven q := by
  unfold roundHalfEven
  split_ifs <;> omega

theorem roundHalfEven_le_floor_add_one (q : ℚ) :
    roundHalfEven q ≤ ⌊q⌋ + 1 := by
  unfold roundHalfEven
  split_ifs <;> omega

theorem roundHalfEven_mono {q r : ℚ} (h : q ≤ r) :
    roundHalfEven q ≤ roundHalfEven r := by
  have hf : ⌊q⌋ ≤ ⌊r⌋ := Int.floor_le_floor h
  rcases eq_or_lt_of_le hf with heq | hlt
  · unfold roundHalfEven
    rw [← heq]
    have hfr : (⌊q⌋ : ℚ) ≤ q := Int.floor_le q
    split_ifs <;> first | omega | linarith
  · calc roundHalfEven q ≤ ⌊q⌋ + 1 := roundHalfEven_le_floor_add_one q
    _ ≤ ⌊r⌋ := by omega
    _ ≤ roundHalfEven r := roundHalfEven_floor_le r

theorem roundHalfEven_add_1000 (q : ℚ) :
    roundHalfEven (q + 1000) = roundHalfEven q + 1000 := by
  have hf : ⌊q + (1000 : ℚ)⌋ = ⌊q⌋ + 1000 := by
    rw [show (1000 : ℚ) = ((1000 : ℤ) : ℚ) by norm_num, Int.floor_add_int]
  unfold roundHalfEven
  rw [hf]
  have hfr : q + 1000 - ((⌊q⌋ + 1000 : ℤ) : ℚ) = q - (⌊q⌋ : ℚ) := by
    push_cast
    ring
  rw [hfr]
  have hpar : (⌊q⌋ + 1000) % 2 = ⌊q⌋ % 2 := by omega
  rw [hpar]
  split_ifs <;> omega

/-- The altitude floor clamp of a +1000 ft climb still raises the rounded
altitude by at least 1000. -/
theorem pyRound0_climb (z : ℚ) :
    pyRound0 z + 1000 ≤ pyRound0 (max 5000 (z + 1000)) := by
  unfold pyRound0
  have h1 : roundHalfEven (z + 1000) ≤ roundHalfEven (max 5000 (z + 1000)) :=
    roundHalfEven_mono (le_max_right _ _)
  rw [roundHalfEven_add_1000] at h1
  exact_mod_cast h1

theorem popMin_none {op : List SNode} (h : popMin op = none) : op = [] := by
  cases op with
  | nil => rfl
  | cons n rest =>
    exfalso
    simp only [popMin] at h
    rcases hrest : popMin rest with - | pr
    · simp only [hrest] at h
      exact Option.noConfusion h
    · obtain ⟨m, rest'⟩ := pr
      simp only [hrest] at h
      by_cases hlt : m.f_cost < n.f_cost
      · rw [if_pos hlt] at h
        exact Option.noConfusion h
      · rw [if_neg hlt] at h
        exact Option.noConfusion h

theorem popMin_mem :
    ∀ {op : List SNode} {c : SNode} {r : List SNode},
      popMin op = some (c, r) → ∀ x ∈ op, x = c ∨ x ∈ r := by
  intro op
  induction op with
  | nil => intro c r h; exact absurd h (by simp [popMin])
  | cons n rest ih =>
    intro c r h x hx
    simp only [popMin] at h
    rcases hrest : popMin rest with - | pr
    · simp only [hrest] at h
      injection h with h'
      injection h' with h1 h2
      rcases List.mem_cons.mp hx with hxe | hxm
      · left; rw [hxe, h1]
      · right; rw [← h2]; exact hxm
    · obtain ⟨m, rest'⟩ := pr
      simp only [hrest] at h
      by_cases hlt : m.f_cost < n.f_cost
      · rw [if_pos hlt] at h
        injection h with h'
        injection h' with h1 h2
        rcases List.mem_cons.mp hx with hxe | hxm
        · right; rw [← h2, hxe]; exact List.mem_cons_self _ _
        · rcases ih hrest x hxm with hxc | hxr
          · left; rw [hxc, h1]
          · right; rw [← h2]; exact List.mem_cons_of_mem _ hxr
      · rw [if_neg hlt] at h
        injection h with h'
        injection h' with h1 h2
        rcases List.mem_cons.mp hx with hxe | hxm
        · left; rw [hxe, h1]
        · right; rw [← h2]; exact hxm

/-- The rounded-altitude sum of a fingerprint. -/
def zsumFp (k : Fp) : ℚ := k.1.2.2.1 + k.2.2.2.1

/-- The rounded-altitude sum of a node. -/
def nodeZ (n : SNode) : ℚ := zsumFp (fpPair n.sa n.sb)

/-- A node dominates the score map when the rounded-altitude sum of every
recorded fingerprint is at most its own. -/
def Dominates (n : SNode) (gs : GS) : Prop :=
  ∀ kv ∈ gs, zsumFp kv.1 ≤ nodeZ n

/-- Some open node dominates the score map. -/
def DomInv (op : List SNode) (gs : GS) : Prop := ∃ n ∈ op, Dominates n gs

theorem domInv_push {op : List SNode} {gs : GS} (s : SNode) (g : ℚ)
    {w : SNode} (hw : w ∈ op) (hdom : Dominates w gs) :
    DomInv (op ++ [s]) ((fpPair s.sa s.sb, g) :: gs) := by
  by_cases hz : nodeZ s ≤ nodeZ w
  · refine ⟨w, List.mem_append_left _ hw, ?_⟩
    intro kv hkv
    rcases List.mem_cons.mp hkv with h | h
    · rw [h]
      exact hz
    · exact hdom kv h
  · refine ⟨s, List.mem_append_right _ (List.mem_singleton.mpr rfl), ?_⟩
    intro kv hkv
    rcases List.mem_cons.mp hkv with h | h
    · rw [h]
      exact le_refl (nodeZ s)
    · exact (hdom kv h).trans (le_of_not_le hz)

/-- Either some open node dominates the score map, or every recorded
fingerprint has rounded-altitude sum at most D. -/
def InvD (D : ℚ) (op : List SNode) (gs : GS) : Prop :=
  DomInv op gs ∨ ∀ kv ∈ gs, zsumFp kv.1 ≤ D

theorem domInv_push_self (op : List SNode) (gs : GS) (s : SNode) (g : ℚ)
    (D : ℚ) (hD : ∀ kv ∈ gs, zsumFp kv.1 ≤ D) (hs : D ≤ nodeZ s) :
    DomInv (op ++ [s]) ((fpPair s.sa s.sb, g) :: gs) := by
  refine ⟨s, List.mem_append_right _ (List.mem_singleton.mpr rfl), ?_⟩
  intro kv hkv
  rcases List.mem_cons.mp hkv with h | h
  · rw [h]
    exact le_refl (nodeZ s)
  · exact (hD kv h).trans hs

theorem invD_push (D : ℚ) (op : List SNode) (gs : GS) (s : SNode) (g : ℚ)
    (hD : ∀ kv ∈ gs, zsumFp kv.1 ≤ D) :
    InvD D (op ++ [s]) ((fpPair s.sa s.sb, g) :: gs) := by
  by_cases hz : zsumFp (fpPair s.sa s.sb) ≤ D
  · refine Or.inr ?_
    intro kv hkv
    rcases List.mem_cons.mp hkv with h | h
    · rw [h]
      exact hz
    · exact hD kv h
  · exact Or.inl (domInv_push_self op gs s g D hD (le_of_not_le hz))

theorem pushSucc_domInv (R : RealFns) (L : ℚ) (csA csB : String)
    (cur : SNode) (acc : List SNode × GS) (m : Maneuver)
    (h : DomInv acc.1 acc.2) :
    DomInv (pushSucc R L csA csB cur acc m).1
      (pushSucc R L csA csB cur acc m).2 := by
  obtain ⟨w, hw, hdom⟩ := h
  simp only [pushSucc]
  rcases hlk : lookupGS acc.2 (fpPair (successorStates csA csB cur.sa cur.sb m).1
      (successorStates csA csB cur.sa cur.sb m).2) with - | g0
  · simp only [hlk]
    exact domInv_push _ _ hw hdom
  · simp only [hlk]
    by_cases hle : g0 ≤ cur.g_cost + m.cost
    · rw [if_pos hle]
      exact ⟨w, hw, hdom⟩
    · rw [if_neg hle]
      exact domInv_push _ _ hw hdom

theorem pushSucc_invD (R : RealFns) (L : ℚ) (csA csB : String)
    (cur : SNode) (acc : List SNode × GS) (m : Maneuver) (D : ℚ)
    (h : InvD D acc.1 acc.2) :
    InvD D (pushSucc R L csA csB cur acc m).1
      (pushSucc R L csA csB cur acc m).2 := by
  rcases h with hdom | hD
  · exact Or.inl (pushSucc_domInv R L csA csB cur acc m hdom)
  · simp only [pushSucc]
    rcases hlk : lookupGS acc.2
        (fpPair (successorStates csA csB cur.sa cur.sb m).1
          (successorStates csA csB cur.sa cur.sb m).2) with - | g0
    · simp only [hlk]
      exact invD_push D acc.1 acc.2 _ _ hD
    · simp only [hlk]
      by_cases hle : g0 ≤ cur.g_cost + m.cost
      · rw [if_pos hle]
        exact Or.inr hD
      · rw [if_neg hle]
        exact invD_push D acc.1 acc.2 _ _ hD

theorem foldl_pushSucc_domInv (R : RealFns) (L : ℚ) (csA csB : String)
    (cur : SNode) (ms : List Maneuver) :
    ∀ acc, DomInv acc.1 acc.2 →
      DomInv (ms.foldl (pushSucc R L csA csB cur) acc).1
        (ms.foldl (pushSucc R L csA csB cur) acc).2 := by
  induction ms with
  | nil => intro acc h; exact h
  | cons m ms ih =>
    intro acc h
    simp only [List.foldl_cons]
    exact ih _ (pushSucc_domInv R L csA csB cur acc m h)

theorem foldl_pushSucc_invD (R : RealFns) (L : ℚ) (csA csB : String)
    (cur : SNode) (D : ℚ) (ms : List Maneuver) :
    ∀ acc, InvD D acc.1 acc.2 →
      InvD D (ms.foldl (pushSucc R L csA csB cur) acc).1
        (ms.foldl (pushSucc R L csA csB cur) acc).2 := by
  induction ms with
  | nil => intro acc h; exact h
  | cons m ms ih =>
    intro acc h
    simp only [List.foldl_cons]
    exact ih _ (pushSucc_invD R L csA csB cur acc m D h)

theorem lookupGS_none {gs : GS} {D : ℚ}
    (hD : ∀ kv ∈ gs, zsumFp kv.1 ≤ D) {key : Fp} (hk : D < zsumFp key) :
    lookupGS gs key = none := by
  induction gs with
  | nil => rfl
  | cons kv rest ih =>
    obtain ⟨k, v⟩ := kv
    simp only [lookupGS]
    by_cases hkk : k = key
    · exfalso
      have h1 : zsumFp k ≤ D := hD (k, v) (List.mem_cons_self _ _)
      rw [hkk] at h1
      exact absurd hk (not_lt.mpr h1)
    · rw [if_neg hkk]
      exact ih fun kv' hkv' => hD kv' (List.mem_cons_of_mem _ hkv')

/-- The +1000 ft climb for the first agent, as it occurs in the maneuver
catalogue. -/
def altPlus (csA : String) : Maneuver :=
  { callsign := csA, altitude_change := 1000 }

theorem nodeZ_altPlus (csA csB : String) (cur : SNode) :
    nodeZ cur + 1000 ≤
      zsumFp (fpPair
        (successorStates csA csB cur.sa cur.sb (altPlus csA)).1
        (successorStates csA csB cur.sa cur.sb (altPlus csA)).2) := by
  simp only [successorStates, altPlus, apply_maneuver, nodeZ, zsumFp, fpPair,
    fpAc, if_pos]
  have h := pyRound0_climb cur.sa.z
  linarith

theorem pushSucc_altPlus (R : RealFns) (L : ℚ) (csA csB : String)
    (cur : SNode) (acc : List SNode × GS)
    (hD : ∀ kv ∈ acc.2, zsumFp kv.1 ≤ nodeZ cur) :
    DomInv (pushSucc R L csA csB cur acc (altPlus csA)).1
      (pushSucc R L csA csB cur acc (altPlus csA)).2 := by
  have hk : nodeZ cur <
      zsumFp (fpPair
        (successorStates csA csB cur.sa cur.sb (altPlus csA)).1
        (successorStates csA csB cur.sa cur.sb (altPlus csA)).2) := by
    have := nodeZ_altPlus csA csB cur
    linarith
  have hlk := lookupGS_none hD hk
  simp only [pushSucc, hlk]
  refine domInv_push_self acc.1 acc.2 _ _ (nodeZ cur) hD ?_
  exact le_of_lt hk

/-- The first nine maneuvers of the catalogue: the eight heading deltas
and the -1000 ft descent of the first agent. -/
def preAltPlus (csA csB : String) : List Maneuver :=
  (([-10, 10, -5, 5] : List ℚ).map
      fun d => { callsign := csA, heading_change := d }) ++
  (([-10, 10, -5, 5] : List ℚ).map
      fun d => { callsign := csB, heading_change := d }) ++
  [{ callsign := csA, altitude_change := -1000 }]

/-- The maneuvers of the catalogue after the +1000 ft climb of the first
agent. -/
def postAltPlus (csB : String) : List Maneuver :=
  ([-1000, 1000] : List ℚ).map
    fun d => { callsign := csB, altitude_change := d }

theorem maneuver_options_decomp (csA csB : String) :
    MANEUVER_OPTIONS csA csB =
      preAltPlus csA csB ++ altPlus csA :: postAltPlus csB := by
  rfl

theorem expandAll_split (R : RealFns) (L : ℚ) (csA csB : String)
    (cur : SNode) (rest : List SNode) (gs : GS) :
    expandAll R L csA csB cur rest gs =
      (postAltPlus csB).foldl (pushSucc R L csA csB cur)
        (pushSucc R L csA csB cur
          ((preAltPlus csA csB).foldl (pushSucc R L csA csB cur) (rest, gs))
          (altPlus csA)) := by
  unfold expandAll
  rw [maneuver_options_decomp, List.foldl_append, List.foldl_cons]

theorem expandAll_domInv (R : RealFns) (L : ℚ) (csA csB : String)
    {cur : SNode} {op rest : List SNode} {gs : GS}
    (hpop : popMin op = some (cur, rest)) (hinv : DomInv op gs) :
    DomInv (expandAll R L csA csB cur rest gs).1
      (expandAll R L csA csB cur rest gs).2 := by
  obtain ⟨w, hw, hdom⟩ := hinv
  have hstart : InvD (nodeZ cur) rest gs := by
    rcases popMin_mem hpop w hw with hwc | hwr
    · right
      intro kv hkv
      exact hwc ▸ hdom kv hkv
    · exact Or.inl ⟨w, hwr, hdom⟩
  rw [expandAll_split]
  have h1 := foldl_pushSucc_invD R L csA csB cur (nodeZ cur)
    (preAltPlus csA csB) (rest, gs) hstart
  have h2 : DomInv (pushSucc R L csA csB cur
      ((preAltPlus csA csB).foldl (pushSucc R L csA csB cur) (rest, gs))
      (altPlus csA)).1
      (pushSucc R L csA csB cur
      ((preAltPlus csA csB).foldl (pushSucc R L csA csB cur) (rest, gs))
      (altPlus csA)).2 := by
    rcases h1 with hdom1 | hD1
    · exact pushSucc_domInv R L csA csB cur _ _ hdom1
    · exact pushSucc_altPlus R L csA csB cur _ hD1
  exact foldl_pushSucc_domInv R L csA csB cur _ _ h2

theorem aloop_no_empty (R : RealFns) (L : ℚ) (csA csB : String) :
    ∀ (fuel : Nat) (op : List SNode) (gs : GS), DomInv op gs →
      (aloop R L csA csB fuel op gs).1 ≠ AStarExit.emptyOpen := by
  intro fuel
  induction fuel with
  | zero =>
    intro op gs hinv
    rw [aloop]
    rcases hpop : popMin op with - | pr
    · exfalso
      obtain ⟨w, hw, -⟩ := hinv
      rw [popMin_none hpop] at hw
      exact absurd hw (List.not_mem_nil w)
    · obtain ⟨cur, rest⟩ := pr
      simp only [hpop]
      intro hcontra
      exact AStarExit.noConfusion hcontra
  | succ n ih =>
    intro op gs hinv
    rw [aloop]
    rcases hpop : popMin op with - | pr
    · exfalso
      obtain ⟨w, hw, -⟩ := hinv
      rw [popMin_none hpop] at hw
      exact absurd hw (List.not_mem_nil w)
    · obtain ⟨cur, rest⟩ := pr
      simp only [hpop]
      by_cases h0 : cur.h_cost = 0
      · simp only [if_pos h0]
        intro hcontra
        exact AStarExit.noConfusion hcontra
      · simp only [if_neg h0]
        have hnext := expandAll_domInv R L csA csB hpop hinv
        exact ih (expandAll R L csA csB cur rest gs).1
          (expandAll R L csA csB cur rest gs).2 hnext

theorem domInv_initial (R : RealFns) (L : ℚ) (A B : Aircraft) :
    DomInv [aStarInit R L A B] [(fpPair A.state B.state, 0)] := by
  refine ⟨aStarInit R L A B, List.mem_singleton.mpr rfl, ?_⟩
  intro kv hkv
  rcases List.mem_cons.mp hkv with h | h
  · rw [h]
    exact le_refl _
  · exact absurd h (List.not_mem_nil kv)

/-- C4: a_star_search ends in exactly one of two ways: a popped node with
h = 0 (success, returning the reconstructed maneuver list) or exhaustion
of the 1000-pop budget (returning None); in particular the loop guard
never fires because the open list became empty, since every expansion of a
node whose rounded-altitude sum dominates all recorded fingerprints pushes
its +1000 ft climb successor under a fresh fingerprint. -/
theorem a_star_ends_success_or_budget (R : RealFns) (L : ℚ)
    (A B : Aircraft) :
    (∃ p, (aStarRun R L A B).1 = AStarExit.success p ∧
        a_star_search R L A B = some p) ∨
      ((aStarRun R L A B).1 = AStarExit.budget ∧
        a_star_search R L A B = none) := by
  have hne : (aStarRun R L A B).1 ≠ AStarExit.emptyOpen :=
    aloop_no_empty R L A.callsign B.callsign max_search_nodes
      [aStarInit R L A B] [(fpPair A.state B.state, 0)]
      (domInv_initial R L A B)
  cases hex : (aStarRun R L A B).1 with
  | success p =>
    left
    refine ⟨p, rfl, ?_⟩
    unfold a_star_search
    rw [hex]
  | budget =>
    right
    refine ⟨rfl, ?_⟩
    unfold a_star_search
    rw [hex]
  | emptyOpen => exact absurd hex hne

theorem popMin_sub :
    ∀ {op : List SNode} {c : SNode} {r : List SNode},
      popMin op = some (c, r) → c ∈ op ∧ ∀ x ∈ r, x ∈ op := by
  intro op
  induction op with
  | nil => intro c r h; exact absurd h (by simp [popMin])
  | cons n rest ih =>
    intro c r h
    simp only [popMin] at h
    rcases hrest : popMin rest with - | pr
    · simp only [hrest] at h
      injection h with h'
      injection h' with h1 h2
      subst h1
      subst h2
      exact ⟨List.mem_cons_self _ _, fun x hx => List.mem_cons_of_mem _ hx⟩
    · obtain ⟨m, rest'⟩ := pr
      simp only [hrest] at h
      by_cases hlt : m.f_cost < n.f_cost
      · rw [if_pos hlt] at h
        injection h with h'
        injection h' with h1 h2
        obtain ⟨hm, hsub⟩ := ih hrest
        subst h1
        subst h2
        refine ⟨List.mem_cons_of_mem _ hm, ?_⟩
        intro x hx
        rcases List.mem_cons.mp hx with hxe | hxm
        · rw [hxe]
          exact List.mem_cons_self _ _
        · exact List.mem_cons_of_mem _ (hsub x hxm)
      · rw [if_neg hlt] at h
        injection h with h'
        injection h' with h1 h2
        subst h1
        subst h2
        exact ⟨List.mem_cons_self _ _, fun x hx => List.mem_cons_of_mem _ hx⟩

/-- A search node whose planar positions are those of the two given
aircraft. -/
def SamePos (A B : Aircraft) (n : SNode) : Prop :=
  n.sa.x = A.x ∧ n.sa.y = A.y ∧ n.sb.x = B.x ∧ n.sb.y = B.y

/-- The configurations (open list, score map) that one a_star_search
invocation for the pair (A, B) can reach: the initial configuration, and
the result of one loop iteration from a reachable configuration whose
popped node fails the goal test. -/
inductive AStarReach (R : RealFns) (L : ℚ) (A B : Aircraft) :
    List SNode → GS → Prop
  | init :
      AStarReach R L A B [aStarInit R L A B] [(fpPair A.state B.state, 0)]
  | step {op : List SNode} {gs : GS} {cur : SNode} {rest : List SNode} :
      AStarReach R L A B op gs →
      popMin op = some (cur, rest) →
      cur.h_cost ≠ 0 →
      AStarReach R L A B
        (expandAll R L A.callsign B.callsign cur rest gs).1
        (expandAll R L A.callsign B.callsign cur rest gs).2

theorem successorStates_pos (csA csB : String) (sa sb : AcState)
    (m : Maneuver) :
    (successorStates csA csB sa sb m).1.x = sa.x ∧
    (successorStates csA csB sa sb m).1.y = sa.y ∧
    (successorStates csA csB sa sb m).2.x = sb.x ∧
    (successorStates csA csB sa sb m).2.y = sb.y := by
  unfold successorStates apply_maneuver
  split_ifs <;> exact ⟨rfl, rfl, rfl, rfl⟩

theorem pushSucc_samePos (R : RealFns) (L : ℚ) (csA csB : String)
    (A B : Aircraft) (cur : SNode) (acc : List SNode × GS) (m : Maneuver)
    (hcur : SamePos A B cur) (hacc : ∀ n ∈ acc.1, SamePos A B n) :
    ∀ n ∈ (pushSucc R L csA csB cur acc m).1, SamePos A B n := by
  have hsucc : SamePos A B
      ⟨(successorStates csA csB cur.sa cur.sb m).1,
        (successorStates csA csB cur.sa cur.sb m).2,
        cur.g_cost + m.cost,
        _heuristic R L (successorStates csA csB cur.sa cur.sb m).1
          (successorStates csA csB cur.sa cur.sb m).2,
        cur.g_cost + m.cost +
          _heuristic R L (successorStates csA csB cur.sa cur.sb m).1
            (successorStates csA csB cur.sa cur.sb m).2,
        cur.path ++ [m]⟩ := by
    obtain ⟨h1, h2, h3, h4⟩ := successorStates_pos csA csB cur.sa cur.sb m
    obtain ⟨c1, c2, c3, c4⟩ := hcur
    exact ⟨h1.trans c1, h2.trans c2, h3.trans c3, h4.trans c4⟩
  intro n hn
  simp only [pushSucc] at hn
  rcases hlk : lookupGS acc.2
      (fpPair (successorStates csA csB cur.sa cur.sb m).1
        (successorStates csA csB cur.sa cur.sb m).2) with - | g0
  · simp only [hlk] at hn
    rcases List.mem_append.mp hn with h | h
    · exact hacc n h
    · rw [List.mem_singleton.mp h]
      exact hsucc
  · simp only [hlk] at hn
    by_cases hle : g0 ≤ cur.g_cost + m.cost
    · rw [if_pos hle] at hn
      exact hacc n hn
    · rw [if_neg hle] at hn
      rcases List.mem_append.mp hn with h | h
      · exact hacc n h
      · rw [List.mem_singleton.mp h]
        exact hsucc

theorem foldl_pushSucc_samePos (R : RealFns) (L : ℚ) (csA csB : String)
    (A B : Aircraft) (cur : SNode) (hcur : SamePos A B cur)
    (ms : List Maneuver) :
    ∀ acc, (∀ n ∈ acc.1, SamePos A B n) →
      ∀ n ∈ (ms.foldl (pushSucc R L csA csB cur) acc).1, SamePos A B n := by
  induction ms with
  | nil => intro acc h; exact h
  | cons m ms ih =>
    intro acc h
    simp only [List.foldl_cons]
    exact ih _ (pushSucc_samePos R L csA csB A B cur acc m hcur h)

/-- C10: throughout one a_star_search invocation the planar positions of
both agents in every open node of every reachable configuration equal
those of the starting pair: maneuvers alter only heading, altitude and
speed, and successor generation never advances positions, so the
heuristic always scores closest approach from the original positions. -/
theorem search_positions_invariant (R : RealFns) (L : ℚ) (A B : Aircraft)
    {op : List SNode} {gs : GS} (hreach : AStarReach R L A B op gs) :
    ∀ n ∈ op, SamePos A B n := by
  induction hreach with
  | init =>
    intro n hn
    rw [List.mem_singleton.mp hn]
    exact ⟨rfl, rfl, rfl, rfl⟩
  | step hr hpop h0 ih =>
    next op' gs' cur rest =>
      have hcur : SamePos A B cur := ih cur (popMin_sub hpop).1
      have hrest : ∀ n ∈ rest, SamePos A B n :=
        fun n hn => ih n ((popMin_sub hpop).2 n hn)
      exact foldl_pushSucc_samePos R L A.callsign B.callsign A B cur hcur
        (MANEUVER_OPTIONS A.callsign B.callsign) (rest, gs') hrest

theorem search_positions_invariant_witness :
    AStarReach ⟨fun _ => 0, fun _ => 0, fun _ => 0⟩ 1
      (Aircraft.init "AAL123" 0 0 30000 400 90)
      (Aircraft.init "UAL456" 10 0 30000 400 270)
      [aStarInit ⟨fun _ => 0, fun _ => 0, fun _ => 0⟩ 1
        (Aircraft.init "AAL123" 0 0 30000 400 90)
        (Aircraft.init "UAL456" 10 0 30000 400 270)]
      [(fpPair (Aircraft.init "AAL123" 0 0 30000 400 90).state
          (Aircraft.init "UAL456" 10 0 30000 400 270).state, 0)] ∧
    ∀ n ∈ [aStarInit ⟨fun _ => 0, fun _ => 0, fun _ => 0⟩ 1
        (Aircraft.init "AAL123" 0 0 30000 400 90)
        (Aircraft.init "UAL456" 10 0 30000 400 270)],
      SamePos (Aircraft.init "AAL123" 0 0 30000 400 90)
        (Aircraft.init "UAL456" 10 0 30000 400 270) n :=
  ⟨AStarReach.init,
    search_positions_invariant _ _ _ _ AStarReach.init⟩

/-- The predicted timing field of a conflict report: the Immediate tag of
the near-parallel branch, or the minutes-to-conflict figure. -/
inductive ReportWhen where
  | immediate : ReportWhen
  | inMinutes : ℚ → ReportWhen
deriving DecidableEq

/-- The resolution status field of a conflict report. -/
inductive ResStatus where
  | noResAttempted : ResStatus
  | resolved : Nat → ResStatus
  | failed : ResStatus
deriving DecidableEq

/-- One entry of the conflict list returned by check_for_conflicts. -/
structure Report where
  csA : String
  csB : String
  whenR : ReportWhen
  h_dist : ℚ
  v_dist : ℚ
  status : ResStatus
deriving DecidableEq

/-- The state threaded through the pair scan of check_for_conflicts: the
resolution queues filled so far this tick, the conflict list, the flagged
callsigns, and - recorded for the theorems only - the pairs for which a
search was dispatched. -/
structure ScanState where
  resolved_maneuvers : List (String × List Maneuver)
  conflicts : List Report
  alerts : List String
  dispatched : List (String × String)
deriving DecidableEq

/-- Membership of a callsign among the queued keys (the Python test
callsign in self.resolved_maneuvers). -/
def hasKey (r : List (String × List Maneuver)) (cs : String) : Bool :=
  r.any fun kv => kv.1 == cs

/-- self.resolved_maneuvers.setdefault(m.callsign, []).append(m). -/
def enqueue (r : List (String × List Maneuver)) (m : Maneuver) :
    List (String × List Maneuver) :=
  if hasKey r m.callsign then
    r.map fun kv => if kv.1 == m.callsign then (kv.1, kv.2 ++ [m]) else kv
  else r ++ [(m.callsign, [m])]

/-- The body of the pair loop of ATC_Controller.check_for_conflicts for
one pair, acting on the scan state: skip if either agent is already
queued; skip if vertically safe; the near-parallel branch flags on close
current distance without a search; otherwise dispatch a search when the
projected closest approach violates the horizontal minimum inside the
lookahead window, queueing the returned maneuvers on success (a None or
empty result sets both flags and a failed status instead). -/
def scanPair (R : RealFns) (L : ℚ) (st : ScanState)
    (p : Aircraft × Aircraft) : ScanState :=
  let a := p.1
  let b := p.2
  if hasKey st.resolved_maneuvers a.callsign ||
      hasKey st.resolved_maneuvers b.callsign then st
  else
    let vertical_sep := |a.z - b.z|
    if VERTICAL_MIN ≤ vertical_sep then st
    else
      let vax := a.speed * R.sin a.heading
      let vay := a.speed * R.cos a.heading
      let vbx := b.speed * R.sin b.heading
      let vby := b.speed * R.cos b.heading
      let vrx := vbx - vax
      let vry := vby - vay
      let rx := b.x - a.x
      let ry := b.y - a.y
      let v_rel_sq := vrx ^ 2 + vry ^ 2
      if v_rel_sq < 1/1000 then
        let dist_current := R.sqrt (rx ^ 2 + ry ^ 2)
        if dist_current < HORIZONTAL_MIN then
          { st with
            alerts := st.alerts ++ [a.callsign, b.callsign]
            conflicts := st.conflicts ++
              [⟨a.callsign, b.callsign, ReportWhen.immediate, dist_current,
                vertical_sep, ResStatus.noResAttempted⟩] }
        else st
      else
        let tcpa := -(rx * vrx + ry * vry) / v_rel_sq
        if 0 ≤ tcpa ∧ tcpa ≤ L then
          let min_sep_x := rx + vrx * tcpa
          let min_sep_y := ry + vry * tcpa
          let min_sep_dist := R.sqrt (min_sep_x ^ 2 + min_sep_y ^ 2)
          if min_sep_dist < HORIZONTAL_MIN then
            let st' := { st with
              dispatched := st.dispatched ++ [(a.callsign, b.callsign)] }
            match a_star_search R L a b with
            | some path =>
              if path = [] then
                { st' with
                  alerts := st'.alerts ++ [a.callsign, b.callsign]
                  conflicts := st'.conflicts ++
                    [⟨a.callsign, b.callsign, ReportWhen.inMinutes (tcpa * 60),
                      min_sep_dist, vertical_sep, ResStatus.failed⟩] }
              else
                { st' with
                  resolved_maneuvers :=
                    path.foldl enqueue st'.resolved_maneuvers
                  conflicts := st'.conflicts ++
                    [⟨a.callsign, b.callsign, ReportWhen.inMinutes (tcpa * 60),
                      min_sep_dist, vertical_sep,
                      ResStatus.resolved path.length⟩] }
            | none =>
              { st' with
                alerts := st'.alerts ++ [a.callsign, b.callsign]
                conflicts := st'.conflicts ++
                  [⟨a.callsign, b.callsign, ReportWhen.inMinutes (tcpa * 60),
                    min_sep_dist, vertical_sep, ResStatus.failed⟩] }
          else st
        else st

/-- All index pairs i < j of a list, in the order of the double loop. -/
def pairsOf {α : Type} : List α → List (α × α)
  | [] => []
  | a :: rest => (rest.map fun b => (a, b)) ++ pairsOf rest

/-- The ATC_Controller fields the conflict scan touches. -/
structure Controller where
  aircraft_list : List Aircraft
  lookahead_time_hrs : ℚ
  resolved_maneuvers : List (String × List Maneuver)
deriving DecidableEq

/-- ATC_Controller.add_aircraft: appends unconditionally. -/
def add_aircraft (c : Controller) (a : Aircraft) : Controller :=
  { c with aircraft_list := c.aircraft_list ++ [a] }

/-- ATC_Controller.check_for_conflicts: clears every alert flag, discards
the stored resolution queues, scans all pairs, and yields the updated
controller together with the final scan state (whose conflicts field is
the returned list of the source). -/
def check_for_conflicts (R : RealFns) (c : Controller) :
    Controller × ScanState :=
  let cleared := c.aircraft_list.map
    fun ac => { ac with conflict_alert := false }
  let stF := (pairsOf cleared).foldl (scanPair R c.lookahead_time_hrs)
    ⟨[], [], [], []⟩
  ({ aircraft_list := cleared.map fun ac =>
        { ac with conflict_alert := stF.alerts.contains ac.callsign }
     lookahead_time_hrs := c.lookahead_time_hrs
     resolved_maneuvers := stF.resolved_maneuvers }, stF)

/-- C7: at the start of every conflict scan all alert flags are cleared
and the previously stored resolution queues are discarded, so the whole
scan result - new flags, new queues, reports - is independent of the
incoming flags and of any queued-but-unapplied maneuvers of a prior
tick. -/
theorem check_for_conflicts_fresh_pass (R : RealFns) (c : Controller)
    (f : Aircraft → Bool) (r : List (String × List Maneuver)) :
    check_for_conflicts R
      { c with
        aircraft_list :=
          c.aircraft_list.map fun ac => { ac with conflict_alert := f ac }
        resolved_maneuvers := r } =
    check_for_conflicts R c := by
  have hmap :
      (c.aircraft_list.map fun ac => { ac with conflict_alert := f ac }).map
        (fun ac => { ac with conflict_alert := false }) =
      c.aircraft_list.map fun ac => { ac with conflict_alert := false } := by
    rw [List.map_map]
    rfl
  simp only [check_for_conflicts]
  rw [hmap]

/-- C5 (amended): a pair is skipped outright - no geometry, no search, no
report, no flag, no queue change - whenever either of its agents already
has a resolution queued in this tick. -/
theorem scan_skips_queued_agents (R : RealFns) (L : ℚ) (st : ScanState)
    (p : Aircraft × Aircraft)
    (h : hasKey st.resolved_maneuvers p.1.callsign = true ∨
         hasKey st.resolved_maneuvers p.2.callsign = true) :
    scanPair R L st p = st := by
  unfold scanPair
  rw [if_pos (Bool.or_eq_true _ _ |>.mpr h)]

theorem scan_skips_queued_agents_witness :
    (hasKey [("AAL123", ([] : List Maneuver))]
        (Aircraft.init "AAL123" 0 0 30000 400 90).callsign = true ∨
      hasKey [("AAL123", ([] : List Maneuver))]
        (Aircraft.init "UAL456" 10 0 30000 400 270).callsign = true) ∧
    scanPair ⟨fun _ => 0, fun _ => 0, fun _ => 0⟩ 1
      ⟨[("AAL123", [])], [], [], []⟩
      (Aircraft.init "AAL123" 0 0 30000 400 90,
        Aircraft.init "UAL456" 10 0 30000 400 270) =
      ⟨[("AAL123", [])], [], [], []⟩ :=
  ⟨Or.inl (by decide),
    scan_skips_queued_agents ⟨fun _ => 0, fun _ => 0, fun _ => 0⟩ 1
      ⟨[("AAL123", [])], [], [], []⟩
      (Aircraft.init "AAL123" 0 0 30000 400 90,
        Aircraft.init "UAL456" 10 0 30000 400 270)
      (Or.inl (by decide))⟩

/-- Trigonometric stand-ins for one concrete three-aircraft tick: they
agree with the true sin and cos at every angle the taken control path
evaluates (multiples of 90 degrees), and the square root is only ever
taken of 0 on that path. -/
def exR : RealFns :=
  ⟨fun d => if d = 90 then 1 else if d = 270 then -1 else 0,
   fun d => if d = 0 then 1 else if d = 180 then -1 else 0,
   fun _ => 0⟩

/-- Three aircraft at one altitude: AAL123 and UAL456 head-on, SWA789
closing head-on with UAL456 from the far side. -/
def exC5 : Controller :=
  { aircraft_list :=
      [Aircraft.init "AAL123" 0 0 30000 400 90,
       Aircraft.init "UAL456" 10 0 30000 400 270,
       Aircraft.init "SWA789" (-20) 0 30000 400 90],
    lookahead_time_hrs := 1/6,
    resolved_maneuvers := [] }

/-- C5 (counterexample): in this single tick the dispatched searches are
(AAL123, UAL456) and then (UAL456, SWA789): agent UAL456 appears in two
dispatched searches of the same tick.  The first search resolves the
conflict with a maneuver for AAL123 alone, so UAL456 never enters the
queued set that the skip rule consults, and the pair (UAL456, SWA789) is
not skipped. -/
theorem conflict_scan_double_dispatch_counterexample :
    (check_for_conflicts exR exC5).2.dispatched =
      [("AAL123", "UAL456"), ("UAL456", "SWA789")] ∧
    ((check_for_conflicts exR exC5).2.dispatched.filter
        fun pr => pr.1 == "UAL456" || pr.2 == "UAL456").length = 2 :=
  ⟨by decide, by decide⟩

/-- C8 (counterexample): ATC_Controller.add_aircraft performs no
duplicate-callsign check: registering a second aircraft under an existing
callsign succeeds and extends the collection to two aircraft with equal
callsigns, instead of rejecting the operation and leaving the collection
unchanged. -/
theorem add_aircraft_duplicate_counterexample :
    (add_aircraft
        ⟨[Aircraft.init "AAL123" 0 0 30000 400 90], 1/6, []⟩
        (Aircraft.init "AAL123" 5 5 31000 400 180)).aircraft_list =
      [Aircraft.init "AAL123" 0 0 30000 400 90,
       Aircraft.init "AAL123" 5 5 31000 400 180] ∧
    ((add_aircraft
        ⟨[Aircraft.init "AAL123" 0 0 30000 400 90], 1/6, []⟩
        (Aircraft.init "AAL123" 5 5 31000 400 180)).aircraft_list.map
      Aircraft.callsign) = ["AAL123", "AAL123"] :=
  ⟨by decide, by decide⟩

/-- str.upper() on one character, for the ASCII range callsigns use. -/
def pyUpperChar (c : Char) : Char :=
  if 'a' ≤ c ∧ c ≤ 'z' then Char.ofNat (c.toNat - 32) else c

/-- str.upper() as applied to the entered callsign. -/
def pyUpper (s : String) : String := ⟨s.data.map pyUpperChar⟩

/-- AddPlaneDialog.add_aircraft with the six entry fields already parsed:
the entered callsign is upper-cased, the add is rejected with a duplicate
error while the collection stays untouched when an existing aircraft
carries exactly that callsign, and otherwise the aircraft is registered
through ATC_Controller.add_aircraft.  (The ValueError branch for
non-numeric entries is outside this model.) -/
def dialog_add_aircraft (c : Controller) (callsign_entry : String)
    (x y z speed heading : ℚ) : Except String Controller :=
  let callsign := pyUpper callsign_entry
  if c.aircraft_list.any fun ac => ac.callsign == callsign then
    Except.error "Input Error: callsign already exists"
  else
    Except.ok (add_aircraft c (Aircraft.init callsign x y z speed heading))

/-- C8 (amended): the duplicate-identity rejection is enforced by the
dialog caller, not by ATC_Controller.add_aircraft: the dialog rejects the
operation (leaving the collection unchanged) exactly when an existing
aircraft carries the upper-cased entered callsign, and registers the new
aircraft otherwise. -/
theorem dialog_add_rejects_duplicates (c : Controller) (cs : String)
    (x y z speed heading : ℚ) :
    ((c.aircraft_list.any fun ac => ac.callsign == pyUpper cs) = true →
      dialog_add_aircraft c cs x y z speed heading =
        Except.error "Input Error: callsign already exists") ∧
    ((c.aircraft_list.any fun ac => ac.callsign == pyUpper cs) = false →
      dialog_add_aircraft c cs x y z speed heading =
        Except.ok (add_aircraft c
          (Aircraft.init (pyUpper cs) x y z speed heading))) := by
  constructor
  · intro h
    unfold dialog_add_aircraft
    rw [if_pos h]
  · intro h
    unfold dialog_add_aircraft
    rw [if_neg (by rw [h]; exact Bool.false_ne_true)]

theorem dialog_add_rejects_duplicates_witness :
    ((([Aircraft.init "AAL123" 0 0 30000 400 90] : List Aircraft).any
        fun ac => ac.callsign == pyUpper "aal123") = true) ∧
    dialog_add_aircraft
      ⟨[Aircraft.init "AAL123" 0 0 30000 400 90], 1/6, []⟩
      "aal123" 5 5 31000 400 180 =
      Except.error "Input Error: callsign already exists" :=
  ⟨by decide,
    (dialog_add_rejects_duplicates
      ⟨[Aircraft.init "AAL123" 0 0 30000 400 90], 1/6, []⟩
      "aal123" 5 5 31000 400 180).1 (by decide)⟩
